import Mathlib

/-!
Verification of the image-vectorizer backend (src/backend/app.py) against its
natural-language specification.  The Python source is shallowly embedded:
pure computations become Lean functions on `Nat`/`Int`/`ℚ`/`List`, pixel data
becomes lists of intensity rows or width/height/pixel-function records, and
the batch pipeline becomes a fold over explicit per-file records whose
boolean fields model the outcomes of the external tool invocations
(`potrace`, ghostscript).  A failed external invocation is modelled as
producing no output file, and a `check=True` subprocess failure as an
exception reaching the surrounding `try`.
-/

/-! ### Binarizer (`raster_to_pbm`, app.py lines 46-57)

The decoded luminance image (`Image.open(...).convert("L")`; `np.array`) is a
grid of byte values, modelled as a list of rows of `Nat`.  The source computes
`mask = data < threshold` and `np.where(mask, 0, 255)` elementwise. -/

def binarize (img : List (List Nat)) (threshold : Int) : List (List Nat) :=
  img.map (fun row => row.map (fun (v : Nat) => if (v : Int) < threshold then 0 else 255))

/-- Pixel access into a row-major grid: row `i`, column `j`. -/
def pixelAt (img : List (List Nat)) (i j : Nat) : Option Nat :=
  (img[i]?).bind (fun r => r[j]?)

lemma pixelAt_binarize (img : List (List Nat)) (t : Int) (i j : Nat) :
    pixelAt (binarize img t) i j
      = (pixelAt img i j).map (fun (v : Nat) => if (v : Int) < t then 0 else 255) := by
  unfold pixelAt binarize
  rw [List.getElem?_map]
  rcases h : img[i]? with _ | row
  · rfl
  · show (row.map _)[j]? = Option.map _ row[j]?
    exact List.getElem?_map _ row j

/-- C1: for every decodable input image and every integer threshold, `binarize`
maps each pixel to 0 (black) exactly when its luminance is strictly below the
threshold and to 255 (white) otherwise (a pixel whose luminance equals the
threshold is white), and the output grid has exactly the same number of rows
and the same row lengths as the input. -/
theorem binarize_c1 (img : List (List Nat)) (threshold : Int) :
    (binarize img threshold).length = img.length
    ∧ (∀ i : Nat, ((binarize img threshold)[i]?).map List.length
        = (img[i]?).map List.length)
    ∧ (∀ i j v : Nat, pixelAt img i j = some v →
        (pixelAt (binarize img threshold) i j = some 0 ↔ (v : Int) < threshold)
        ∧ (pixelAt (binarize img threshold) i j = some 255 ↔ threshold ≤ (v : Int))) := by
  refine ⟨by simp [binarize], ?_, ?_⟩
  · intro i
    unfold binarize
    rw [List.getElem?_map]
    rcases h : img[i]? with _ | row
    · rfl
    · show some (row.map _).length = some row.length
      rw [List.length_map]
  · intro i j v hv
    rw [pixelAt_binarize, hv]
    constructor
    · constructor
      · intro h0
        by_contra hlt
        simp [if_neg hlt] at h0
      · intro hlt
        simp [if_pos hlt]
    · constructor
      · intro h255
        by_contra hle
        push_neg at hle
        simp [if_pos hle] at h255
      · intro hle
        have hnlt : ¬ ((v : Int) < threshold) := not_lt.mpr hle
        simp [if_neg hnlt]

/-- Witness for C1 at a concrete image and threshold: a pixel whose luminance
equals the threshold (120) maps to white. -/
theorem binarize_c1_witness :
    pixelAt [[100, 120], [35, 240]] 0 1 = some 120
    ∧ (pixelAt (binarize [[100, 120], [35, 240]] 120) 0 1 = some 255
        ↔ (120 : Int) ≤ (120 : Int)) := by
  refine ⟨by decide, ?_⟩
  exact ((binarize_c1 [[100, 120], [35, 240]] 120).2.2 0 1 120 (by decide)).2

/-! ### Prefix grouper (app.py line 166)

`prefix = ''.join([c for c in base_name if not c.isdigit()]).rstrip("_-") or base_name`

`base_name` comes out of werkzeug's `secure_filename`, which only lets ASCII
characters through, so Python's `str.isdigit` coincides with the ASCII digit
test on every reachable input; it is modelled with `Char.isDigit`. -/

/-- The strip predicate of `.rstrip("_-")`. -/
def sepB (c : Char) : Bool := c == '_' || c == '-'

def stripDigits (l : List Char) : List Char :=
  l.filter (fun c => !c.isDigit)

/-- Python `str.rstrip("_-")`: remove the maximal trailing run of the
characters `_` and `-`. -/
def rstripSep (l : List Char) : List Char :=
  (l.reverse.dropWhile sepB).reverse

def groupKeyL (l : List Char) : List Char :=
  let r := rstripSep (stripDigits l)
  if r.isEmpty then l else r

/-- The group key of a base name, exactly as computed at app.py line 166
(the `or base_name` fallback fires when the stripped string is empty). -/
def groupKey (s : String) : String :=
  String.mk (groupKeyL s.data)

/-- Written from the spec sentence: remove all ASCII digit characters
(`'0'` through `'9'`), then strip trailing `_` and `-`, falling back to the
original name when the result is empty.  The trailing strip is written by
forward recursion, unlike the reverse/dropWhile form of the source model. -/
def specStripAsciiDigits (l : List Char) : List Char :=
  l.filter (fun c => !(decide ('0' ≤ c) && decide (c ≤ '9')))

def specRstripSep : List Char → List Char
  | [] => []
  | c :: cs =>
    let rest := specRstripSep cs
    if rest.isEmpty && sepB c then [] else c :: rest

def spec_group_key (s : String) : String :=
  let r := specRstripSep (specStripAsciiDigits s.data)
  if r.isEmpty then s else String.mk r

lemma specStripAsciiDigits_eq (l : List Char) :
    specStripAsciiDigits l = stripDigits l := rfl

lemma specRstripSep_eq (l : List Char) : specRstripSep l = rstripSep l := by
  induction l with
  | nil => rfl
  | cons c cs ih =>
    show (if (specRstripSep cs).isEmpty && sepB c then [] else c :: specRstripSep cs)
      = rstripSep (c :: cs)
    unfold rstripSep
    rw [List.reverse_cons, List.dropWhile_append]
    by_cases he : (cs.reverse.dropWhile sepB).isEmpty = true
    · have h0 : cs.reverse.dropWhile sepB = [] := List.isEmpty_eq_true.mp he
      have h1 : specRstripSep cs = [] := by
        rw [ih]
        unfold rstripSep
        rw [h0, List.reverse_nil]
      by_cases hc : sepB c = true
      · simp [h1, h0, hc, List.dropWhile_cons]
      · simp [h1, h0, hc, List.dropWhile_cons]
    · have h0 : cs.reverse.dropWhile sepB ≠ [] := by
        intro hnil
        exact he (by rw [hnil]; rfl)
      have h1 : (specRstripSep cs).isEmpty = false := by
        rw [ih]
        unfold rstripSep
        simpa using h0
      rw [if_neg he, h1, Bool.false_and, if_neg Bool.false_ne_true]
      rw [List.reverse_append, List.reverse_singleton, List.singleton_append, ih]
      rfl

/-- C4: `groupKey` removes all ASCII digit characters from the base name, then
strips trailing `_`/`-`, and falls back to the original name when the result is
empty; with the four concrete examples of the spec. -/
theorem group_key_c4 :
    (∀ s : String, groupKey s = spec_group_key s)
    ∧ groupKey ("part2") = "part"
    ∧ groupKey ("A1B2") = "AB"
    ∧ groupKey ("123") = "123"
    ∧ groupKey ("part__") = "part" := by
  refine ⟨?_, by decide, by decide, by decide, by decide⟩
  intro s
  unfold groupKey spec_group_key groupKeyL
  rw [specStripAsciiDigits_eq, specRstripSep_eq]
  by_cases h : (rstripSep (stripDigits s.data)).isEmpty = true
  · simp only [h, if_true]
  · simp only [h, if_false, Bool.false_eq_true]

lemma dropWhile_idem (p : Char → Bool) (l : List Char) :
    List.dropWhile p (List.dropWhile p l) = List.dropWhile p l := by
  induction l with
  | nil => rfl
  | cons a t ih =>
    by_cases h : p a
    · simp [List.dropWhile_cons, h, ih]
    · simp [List.dropWhile_cons, h]

lemma stripDigits_rstrip_fix (l : List Char) :
    stripDigits (rstripSep (stripDigits l)) = rstripSep (stripDigits l) := by
  apply List.filter_eq_self.mpr
  intro c hc
  have h1 : c ∈ (stripDigits l).reverse.dropWhile sepB := by
    unfold rstripSep at hc
    exact List.mem_reverse.mp hc
  have h2 : c ∈ (stripDigits l).reverse := (List.dropWhile_sublist _).mem h1
  have h3 : c ∈ stripDigits l := List.mem_reverse.mp h2
  exact (List.mem_filter.mp h3).2

lemma rstripSep_rstrip_fix (l : List Char) :
    rstripSep (rstripSep (stripDigits l)) = rstripSep (stripDigits l) := by
  unfold rstripSep
  rw [List.reverse_reverse, dropWhile_idem]

/-- C10: the group-key derivation is idempotent — applying it twice gives the
same result as applying it once. -/
theorem group_key_c10_idempotent : ∀ s : String, groupKey (groupKey s) = groupKey s := by
  intro s
  have key : ∀ l : List Char, groupKeyL (groupKeyL l) = groupKeyL l := by
    intro l
    by_cases h : (rstripSep (stripDigits l)).isEmpty = true
    · have h1 : groupKeyL l = l := by unfold groupKeyL; simp [h]
      rw [h1, h1]
    · have h1 : groupKeyL l = rstripSep (stripDigits l) := by
        unfold groupKeyL; simp [h]
      rw [h1]
      unfold groupKeyL
      rw [stripDigits_rstrip_fix, rstripSep_rstrip_fix]
      simp
  unfold groupKey
  rw [show (String.mk (groupKeyL s.data)).data = groupKeyL s.data from rfl, key]

/-! ### Bitmap model for composition and fitting

PIL grayscale images are modelled as a width, a height and a total pixel
function; `Image.new "L" size 255` and `Image.paste` (at a fully in-bounds
box, as used by the source) translate directly. -/

structure Image where
  width : Nat
  height : Nat
  pix : Nat → Nat → Nat

def Image.new (w h fill : Nat) : Image :=
  ⟨w, h, fun _ _ => fill⟩

def Image.paste (canvas img : Image) (ox oy : Nat) : Image :=
  { canvas with
    pix := fun x y =>
      if ox ≤ x ∧ x < ox + img.width ∧ oy ≤ y ∧ y < oy + img.height then
        img.pix (x - ox) (y - oy)
      else canvas.pix x y }

lemma paste_pix_in (canvas img : Image) (ox oy x y : Nat)
    (hx1 : ox ≤ x) (hx2 : x < ox + img.width) (hy1 : oy ≤ y) (hy2 : y < oy + img.height) :
    (canvas.paste img ox oy).pix x y = img.pix (x - ox) (y - oy) :=
  if_pos ⟨hx1, hx2, hy1, hy2⟩

lemma paste_pix_out (canvas img : Image) (ox oy x y : Nat)
    (h : ¬ (ox ≤ x ∧ x < ox + img.width ∧ oy ≤ y ∧ y < oy + img.height)) :
    (canvas.paste img ox oy).pix x y = canvas.pix x y :=
  if_neg h

/-! ### Grid composer (app.py lines 208-218)

`cols = math.ceil(math.sqrt(count))`, `rows = math.ceil(count / cols)`
(exact real arithmetic on the small counts involved), then each bitmap is
pasted at `(c*w, r*h)` with `r = idx // cols`, `c = idx % cols`, iterating
the enumerated list in order. -/

/-- Search upward for the least `c` with `n ≤ c * c`; `csqAux n c fuel` starts
at candidate `c`. -/
def csqAux (n : Nat) : Nat → Nat → Nat
  | c, 0 => c
  | c, fuel + 1 => if n ≤ c * c then c else csqAux n (c + 1) fuel

/-- `math.ceil(math.sqrt n)` in exact arithmetic: the least `c` with
`n ≤ c * c` (see `ceilSqrt_le_sq` and `ceilSqrt_least`). -/
def ceilSqrt (n : Nat) : Nat := csqAux n 0 n

lemma csqAux_spec (n : Nat) : ∀ (fuel c : Nat), n ≤ (c + fuel) * (c + fuel) →
    n ≤ csqAux n c fuel * csqAux n c fuel
    ∧ ∀ d, c ≤ d → n ≤ d * d → csqAux n c fuel ≤ d := by
  intro fuel
  induction fuel with
  | zero =>
    intro c hc
    exact ⟨by simpa using hc, fun d hd _ => hd⟩
  | succ f ih =>
    intro c hc
    rw [show csqAux n c (f + 1) = if n ≤ c * c then c else csqAux n (c + 1) f from rfl]
    by_cases h : n ≤ c * c
    · rw [if_pos h]
      exact ⟨h, fun d hd _ => hd⟩
    · rw [if_neg h]
      have hc1 : n ≤ (c + 1 + f) * (c + 1 + f) := by
        have : c + 1 + f = c + (f + 1) := by omega
        rw [this]; exact hc
      obtain ⟨ha, hb⟩ := ih (c + 1) hc1
      refine ⟨ha, fun d hd hdd => ?_⟩
      have : c + 1 ≤ d := by
        rcases Nat.eq_or_lt_of_le hd with rfl | hlt
        · exact absurd hdd h
        · exact hlt
      exact hb d this hdd

lemma ceilSqrt_le_sq (n : Nat) : n ≤ ceilSqrt n * ceilSqrt n :=
  (csqAux_spec n n 0 (by nlinarith)).1

lemma ceilSqrt_least (n d : Nat) (h : n ≤ d * d) : ceilSqrt n ≤ d :=
  (csqAux_spec n n 0 (by nlinarith)).2 d (Nat.zero_le d) h

def ceilDiv (a b : Nat) : Nat := (a + b - 1) / b

def pasteCells (cols w h : Nat) : Nat → List Image → Image → Image
  | _, [], canvas => canvas
  | i, img :: rest, canvas =>
      pasteCells cols w h (i + 1) rest
        (canvas.paste img ((i % cols) * w) ((i / cols) * h))

def composeGrid (imgs : List Image) : Image :=
  match imgs with
  | [] => Image.new 0 0 255
  | img0 :: _ =>
    let cols := ceilSqrt imgs.length
    let rows := ceilDiv imgs.length cols
    pasteCells cols img0.width img0.height 0 imgs
      (Image.new (cols * img0.width) (rows * img0.height) 255)

/-- The paste region of grid cell number `j`. -/
def cellHit (cols w h j x y : Nat) : Prop :=
  (j % cols) * w ≤ x ∧ x < (j % cols) * w + w
    ∧ (j / cols) * h ≤ y ∧ y < (j / cols) * h + h

lemma cell_div (a dx w : Nat) (hw : 0 < w) (hdx : dx < w) : (a * w + dx) / w = a := by
  rw [Nat.mul_comm a w, Nat.mul_add_div hw, Nat.div_eq_of_lt hdx, Nat.add_zero]

lemma cellHit_div {cols w h j x y : Nat} (hw : 0 < w) (hh : 0 < h)
    (hc : cellHit cols w h j x y) : x / w = j % cols ∧ y / h = j / cols := by
  obtain ⟨hx1, hx2, hy1, hy2⟩ := hc
  constructor
  · exact Nat.div_eq_of_lt_le hx1 (by rw [Nat.succ_mul]; exact hx2)
  · exact Nat.div_eq_of_lt_le hy1 (by rw [Nat.succ_mul]; exact hy2)

lemma cellHit_uniq {cols w h i j x y : Nat} (hw : 0 < w) (hh : 0 < h)
    (hi : cellHit cols w h i x y) (hj : cellHit cols w h j x y) : i = j := by
  obtain ⟨hi1, hi2⟩ := cellHit_div hw hh hi
  obtain ⟨hj1, hj2⟩ := cellHit_div hw hh hj
  have hm : i % cols = j % cols := by rw [← hi1, hj1]
  have hd : i / cols = j / cols := by rw [← hi2, hj2]
  calc i = cols * (i / cols) + i % cols := (Nat.div_add_mod i cols).symm
    _ = cols * (j / cols) + j % cols := by rw [hm, hd]
    _ = j := Nat.div_add_mod j cols

lemma pasteCells_width (cols w h : Nat) :
    ∀ (ms : List Image) (i0 : Nat) (C : Image),
      (pasteCells cols w h i0 ms C).width = C.width := by
  intro ms
  induction ms with
  | nil => intro i0 C; rfl
  | cons m rest ih => intro i0 C; exact ih (i0 + 1) _

lemma pasteCells_height (cols w h : Nat) :
    ∀ (ms : List Image) (i0 : Nat) (C : Image),
      (pasteCells cols w h i0 ms C).height = C.height := by
  intro ms
  induction ms with
  | nil => intro i0 C; rfl
  | cons m rest ih => intro i0 C; exact ih (i0 + 1) _

lemma pasteCells_pix_miss (cols w h : Nat) :
    ∀ (ms : List Image) (i0 : Nat) (C : Image) (x y : Nat),
      (∀ m ∈ ms, m.width = w ∧ m.height = h) →
      (∀ j, i0 ≤ j → j < i0 + ms.length → ¬ cellHit cols w h j x y) →
      (pasteCells cols w h i0 ms C).pix x y = C.pix x y := by
  intro ms
  induction ms with
  | nil => intro i0 C x y _ _; rfl
  | cons m rest ih =>
    intro i0 C x y hdim hmiss
    show (pasteCells cols w h (i0 + 1) rest _).pix x y = C.pix x y
    rw [ih (i0 + 1) _ x y (fun m hm => hdim m (List.mem_cons_of_mem _ hm))
      (fun j hj1 hj2 => hmiss j (Nat.le_of_succ_le hj1)
        (by simp only [List.length_cons] at hj2 ⊢; omega))]
    apply paste_pix_out
    intro hcov
    apply hmiss i0 (Nat.le_refl i0) (by simp only [List.length_cons]; omega)
    obtain ⟨h1, h2, h3, h4⟩ := hcov
    rw [(hdim m (List.mem_cons_self m rest)).1] at h2
    rw [(hdim m (List.mem_cons_self m rest)).2] at h4
    exact ⟨h1, h2, h3, h4⟩

lemma pasteCells_pix_hit (cols w h : Nat) (hw : 0 < w) (hh : 0 < h) :
    ∀ (ms : List Image) (i0 : Nat) (C : Image) (k : Nat) (hk : k < ms.length),
      (∀ m ∈ ms, m.width = w ∧ m.height = h) →
      ∀ dx dy, dx < w → dy < h →
      (pasteCells cols w h i0 ms C).pix
          (((i0 + k) % cols) * w + dx) (((i0 + k) / cols) * h + dy)
        = (ms.get ⟨k, hk⟩).pix dx dy := by
  intro ms
  induction ms with
  | nil => intro i0 C k hk; exact absurd hk (by simp)
  | cons m rest ih =>
    intro i0 C k hk hdim dx dy hdx hdy
    cases k with
    | zero =>
      simp only [Nat.add_zero]
      show (pasteCells cols w h (i0 + 1) rest _).pix _ _ = m.pix dx dy
      have hpos : cellHit cols w h i0 ((i0 % cols) * w + dx) ((i0 / cols) * h + dy) :=
        ⟨Nat.le_add_right _ _, Nat.add_lt_add_left hdx _, Nat.le_add_right _ _,
          Nat.add_lt_add_left hdy _⟩
      rw [pasteCells_pix_miss cols w h rest (i0 + 1) _ _ _
        (fun m hm => hdim m (List.mem_cons_of_mem _ hm))
        (fun j hj1 hj2 hjc => by
          have : i0 = j := cellHit_uniq hw hh hpos hjc
          omega)]
      have hww : m.width = w := (hdim m (List.mem_cons_self m rest)).1
      have hhh : m.height = h := (hdim m (List.mem_cons_self m rest)).2
      rw [paste_pix_in _ _ _ _ _ _ (by simp) (by simp [hww, hdx]) (by simp)
        (by simp [hhh, hdy])]
      simp
    | succ k1 =>
      show (pasteCells cols w h (i0 + 1) rest _).pix _ _ = _
      have hk1 : k1 < rest.length := by simpa using hk
      have harith : i0 + (k1 + 1) = (i0 + 1) + k1 := by omega
      rw [show ((m :: rest).get ⟨k1 + 1, hk⟩) = rest.get ⟨k1, hk1⟩ from rfl, harith]
      exact ih (i0 + 1) _ k1 hk1 (fun m hm => hdim m (List.mem_cons_of_mem _ hm))
        dx dy hdx hdy

/-- C2: for every non-empty list of `n` bitmaps of identical positive width `w`
and height `h`, the composed grid has size `(cols*w, rows*h)` with
`cols = ceil(sqrt n)` and `rows = ceil(n/cols)`; bitmap `i` occupies the cell
at pixel offset `((i mod cols)*w, (i div cols)*h)`, and every pixel of a cell
whose index is at least `n` keeps the initial white fill 255. -/
theorem compose_grid_c2 (imgs : List Image) (w h : Nat)
    (hne : imgs ≠ []) (hw : 0 < w) (hh : 0 < h)
    (hdim : ∀ m ∈ imgs, m.width = w ∧ m.height = h) :
    (composeGrid imgs).width = ceilSqrt imgs.length * w
    ∧ (composeGrid imgs).height = ceilDiv imgs.length (ceilSqrt imgs.length) * h
    ∧ (∀ (i : Nat) (hi : i < imgs.length) (dx dy : Nat), dx < w → dy < h →
        (composeGrid imgs).pix ((i % ceilSqrt imgs.length) * w + dx)
            ((i / ceilSqrt imgs.length) * h + dy)
          = (imgs.get ⟨i, hi⟩).pix dx dy)
    ∧ (∀ x y : Nat, x < ceilSqrt imgs.length * w
        → y < ceilDiv imgs.length (ceilSqrt imgs.length) * h
        → imgs.length ≤ (y / h) * ceilSqrt imgs.length + x / w
        → (composeGrid imgs).pix x y = 255) := by
  rcases imgs with _ | ⟨img0, rest⟩
  · exact absurd rfl hne
  have h0w : img0.width = w := (hdim img0 (List.mem_cons_self _ _)).1
  have h0h : img0.height = h := (hdim img0 (List.mem_cons_self _ _)).2
  have hcg : composeGrid (img0 :: rest)
      = pasteCells (ceilSqrt (img0 :: rest).length) img0.width img0.height 0 (img0 :: rest)
          (Image.new (ceilSqrt (img0 :: rest).length * img0.width)
            (ceilDiv (img0 :: rest).length (ceilSqrt (img0 :: rest).length)
              * img0.height) 255) := rfl
  rw [h0w, h0h] at hcg
  refine ⟨?_, ?_, ?_, ?_⟩
  · rw [hcg, pasteCells_width]; rfl
  · rw [hcg, pasteCells_height]; rfl
  · intro i hi dx dy hdx hdy
    rw [hcg]
    have hhit := pasteCells_pix_hit (ceilSqrt (img0 :: rest).length) w h hw hh
      (img0 :: rest) 0
      (Image.new (ceilSqrt (img0 :: rest).length * w)
        (ceilDiv (img0 :: rest).length (ceilSqrt (img0 :: rest).length) * h) 255)
      i hi hdim dx dy hdx hdy
    simpa using hhit
  · intro x y hx hy hidx
    rw [hcg]
    have hmiss : ∀ j, 0 ≤ j → j < 0 + (img0 :: rest).length
        → ¬ cellHit (ceilSqrt (img0 :: rest).length) w h j x y := by
      intro j _ hj2 hjc
      obtain ⟨hdx, hdy⟩ := cellHit_div hw hh hjc
      have hj : (y / h) * ceilSqrt (img0 :: rest).length + x / w = j := by
        rw [hdx, hdy, Nat.mul_comm]
        exact Nat.div_add_mod j _
      omega
    rw [pasteCells_pix_miss (ceilSqrt (img0 :: rest).length) w h (img0 :: rest) 0
      (Image.new (ceilSqrt (img0 :: rest).length * w)
        (ceilDiv (img0 :: rest).length (ceilSqrt (img0 :: rest).length) * h) 255)
      x y hdim hmiss]
    rfl

/-- Five 10x10 bitmaps; bitmap `k` has constant intensity `k`, so the value
read back from the composite identifies which bitmap was pasted there. -/
def gridImg (k : Nat) : Image := ⟨10, 10, fun _ _ => k⟩

def gridImgs : List Image := [gridImg 0, gridImg 1, gridImg 2, gridImg 3, gridImg 4]

/-- Witness for C2: five 10x10 bitmaps compose to a 30x20 grid with bitmap 0
at (0,0), bitmap 3 at (0,10), bitmap 4 at (10,10), and white at the unused
cell (20,10). -/
theorem compose_grid_c2_witness :
    gridImgs ≠ []
    ∧ (composeGrid gridImgs).width = 30
    ∧ (composeGrid gridImgs).height = 20
    ∧ (composeGrid gridImgs).pix 0 0 = 0
    ∧ (composeGrid gridImgs).pix 0 10 = 3
    ∧ (composeGrid gridImgs).pix 10 10 = 4
    ∧ (composeGrid gridImgs).pix 20 10 = 255 := by
  have hdim : ∀ m ∈ gridImgs, m.width = 10 ∧ m.height = 10 := by
    intro m hm
    simp only [gridImgs, gridImg, List.mem_cons, List.mem_singleton] at hm
    rcases hm with rfl | rfl | rfl | rfl | rfl | h
    · exact ⟨rfl, rfl⟩
    · exact ⟨rfl, rfl⟩
    · exact ⟨rfl, rfl⟩
    · exact ⟨rfl, rfl⟩
    · exact ⟨rfl, rfl⟩
    · exact absurd h (List.not_mem_nil m)
  have h := compose_grid_c2 gridImgs 10 10 (by simp [gridImgs]) (by decide) (by decide) hdim
  have hlen : gridImgs.length = 5 := rfl
  have hcs : ceilSqrt gridImgs.length = 3 := by rw [hlen]; decide
  have hcd : ceilDiv gridImgs.length 3 = 2 := by
    rw [hlen]; decide
  refine ⟨by simp [gridImgs], ?_, ?_, ?_, ?_, ?_, ?_⟩
  · rw [h.1, hcs]
  · rw [h.2.1, hcs, hcd]
  · have h0 := h.2.2.1 0 (by rw [hlen]; decide) 0 0 (by decide) (by decide)
    rw [hcs] at h0
    simpa [gridImgs, gridImg] using h0
  · have h3 := h.2.2.1 3 (by rw [hlen]; decide) 0 0 (by decide) (by decide)
    rw [hcs] at h3
    simpa [gridImgs, gridImg] using h3
  · have h4 := h.2.2.1 4 (by rw [hlen]; decide) 0 0 (by decide) (by decide)
    rw [hcs] at h4
    simpa [gridImgs, gridImg] using h4
  · exact h.2.2.2 20 10 (by rw [hcs]; decide) (by rw [hcs, hcd]; decide)
      (by rw [hcs, hlen])

/-! ### Canvas fitter (`center_scale_to_canvas`, app.py lines 59-71)

`scale = min(target_w / w, target_h / h) * scale_factor` in exact rational
arithmetic; `int(...)` is truncation toward zero (`truncQ`); the LANCZOS
resample is an external black box modelled by a resampler oracle `R` that is
only assumed to return an image of the requested size.  With
`0 ≤ scale_factor ≤ 1` the new size never exceeds the canvas, so the Python
floor-division offsets coincide with `Nat` division. -/

/-- Python `int()` on a rational: truncation toward zero. -/
def truncQ (q : ℚ) : Int := if q < 0 then -(Int.floor (-q)) else Int.floor q

/-- Rounding to the nearest integer, as the spec's `round(...)` asks
(ties irrelevant at the inputs considered). -/
def specRound (q : ℚ) : Int := Int.floor (q + 1/2)

def scaleOf (w h W H : Nat) (sf : ℚ) : ℚ :=
  min ((W : ℚ) / (w : ℚ)) ((H : ℚ) / (h : ℚ)) * sf

def fitNewW (img : Image) (W H : Nat) (sf : ℚ) : Nat :=
  (truncQ ((img.width : ℚ) * scaleOf img.width img.height W H sf)).toNat

def fitNewH (img : Image) (W H : Nat) (sf : ℚ) : Nat :=
  (truncQ ((img.height : ℚ) * scaleOf img.width img.height W H sf)).toNat

def center_scale_to_canvas (R : Image → Nat → Nat → Image) (img : Image)
    (W H : Nat) (sf : ℚ) : Image :=
  let newW := fitNewW img W H sf
  let newH := fitNewH img W H sf
  let canvas := Image.new W H 255
  canvas.paste (R img newW newH) ((W - newW) / 2) ((H - newH) / 2)

/-- Written from the spec/claim sentence, with `round`: the canvas described
pointwise, white except for the centered resized image. -/
def fit_to_canvas_round (R : Image → Nat → Nat → Image) (img : Image)
    (W H : Nat) (sf : ℚ) : Image :=
  let newW := (specRound ((img.width : ℚ) * scaleOf img.width img.height W H sf)).toNat
  let newH := (specRound ((img.height : ℚ) * scaleOf img.width img.height W H sf)).toNat
  let ox := (W - newW) / 2
  let oy := (H - newH) / 2
  ⟨W, H, fun x y =>
    if ox ≤ x ∧ x < ox + newW ∧ oy ≤ y ∧ y < oy + newH then
      (R img newW newH).pix (x - ox) (y - oy)
    else 255⟩

/-- The same pointwise spec description with the amendment: dimensions use
truncation (`int(...)`), as the source does, instead of `round(...)`. -/
def fit_to_canvas_trunc (R : Image → Nat → Nat → Image) (img : Image)
    (W H : Nat) (sf : ℚ) : Image :=
  let newW := fitNewW img W H sf
  let newH := fitNewH img W H sf
  let ox := (W - newW) / 2
  let oy := (H - newH) / 2
  ⟨W, H, fun x y =>
    if ox ≤ x ∧ x < ox + newW ∧ oy ≤ y ∧ y < oy + newH then
      (R img newW newH).pix (x - ox) (y - oy)
    else 255⟩

/-- A resampler oracle returning an all-black image of the requested size. -/
def constBlackResampler : Image → Nat → Nat → Image :=
  fun _ w h => ⟨w, h, fun _ _ => 0⟩

def img23 : Image := ⟨2, 3, fun _ _ => 0⟩

def img100x50 : Image := ⟨100, 50, fun _ _ => 0⟩

lemma center_scale_pix (R : Image → Nat → Nat → Image) (img : Image)
    (W H : Nat) (sf : ℚ)
    (hR : ∀ i a b, (R i a b).width = a ∧ (R i a b).height = b) (x y : Nat) :
    (center_scale_to_canvas R img W H sf).pix x y
      = (fit_to_canvas_trunc R img W H sf).pix x y := by
  unfold center_scale_to_canvas fit_to_canvas_trunc Image.paste Image.new
  simp only [(hR img (fitNewW img W H sf) (fitNewH img W H sf)).1,
    (hR img (fitNewW img W H sf) (fitNewH img W H sf)).2]

lemma scaleOf_23 : scaleOf 2 3 10 10 1 = 10/3 := by
  unfold scaleOf
  rw [min_def]
  norm_num

lemma fitNewW_23 : fitNewW img23 10 10 1 = 6 := by
  unfold fitNewW truncQ
  rw [show img23.width = 2 from rfl, show img23.height = 3 from rfl, scaleOf_23]
  rw [if_neg (by norm_num)]
  rw [show ((2 : Nat) : ℚ) * (10/3) = 20/3 by norm_num]
  rw [show Int.floor ((20 : ℚ)/3) = 6 from Int.floor_eq_iff.mpr (by norm_num)]
  rfl

lemma fitNewH_23 : fitNewH img23 10 10 1 = 10 := by
  unfold fitNewH truncQ
  rw [show img23.width = 2 from rfl, show img23.height = 3 from rfl, scaleOf_23]
  rw [if_neg (by norm_num)]
  rw [show ((3 : Nat) : ℚ) * (10/3) = 10 by norm_num]
  rw [show Int.floor ((10 : ℚ)) = 10 from Int.floor_eq_iff.mpr (by norm_num)]
  rfl

lemma roundNewW_23 :
    (specRound ((img23.width : ℚ) * scaleOf img23.width img23.height 10 10 1)).toNat = 7 := by
  unfold specRound
  rw [show img23.width = 2 from rfl, show img23.height = 3 from rfl, scaleOf_23]
  rw [show ((2 : Nat) : ℚ) * (10/3) + 1/2 = 43/6 by norm_num]
  rw [show Int.floor ((43 : ℚ)/6) = 7 from Int.floor_eq_iff.mpr (by norm_num)]
  rfl

lemma roundNewH_23 :
    (specRound ((img23.height : ℚ) * scaleOf img23.width img23.height 10 10 1)).toNat = 10 := by
  unfold specRound
  rw [show img23.width = 2 from rfl, show img23.height = 3 from rfl, scaleOf_23]
  rw [show ((3 : Nat) : ℚ) * (10/3) + 1/2 = 21/2 by norm_num]
  rw [show Int.floor ((21 : ℚ)/2) = 10 from Int.floor_eq_iff.mpr (by norm_num)]
  rfl

/-- C3 counterexample: the source truncates (`int`), the claim rounds.  On a
2x3 bitmap fitted into a 10x10 canvas with scale factor 1, the code computes
new width `int(20/3) = 6` and offset 2, the claim predicts `round(20/3) = 7`
and offset 1; the two canvases already differ at pixel (1,0). -/
theorem fit_c3_counterexample :
    (center_scale_to_canvas constBlackResampler img23 10 10 1).pix 1 0 = 255
    ∧ (fit_to_canvas_round constBlackResampler img23 10 10 1).pix 1 0 = 0
    ∧ center_scale_to_canvas constBlackResampler img23 10 10 1
        ≠ fit_to_canvas_round constBlackResampler img23 10 10 1 := by
  have h1 : (center_scale_to_canvas constBlackResampler img23 10 10 1).pix 1 0 = 255 := by
    unfold center_scale_to_canvas Image.paste Image.new
    simp only [fitNewW_23, fitNewH_23]
    rw [if_neg (by norm_num [constBlackResampler])]
  have h2 : (fit_to_canvas_round constBlackResampler img23 10 10 1).pix 1 0 = 0 := by
    unfold fit_to_canvas_round
    simp only [roundNewW_23, roundNewH_23]
    rw [if_pos (by norm_num [constBlackResampler])]
    rfl
  refine ⟨h1, h2, fun hcontra => ?_⟩
  rw [hcontra, h2] at h1
  exact absurd h1 (by norm_num)

lemma scaleOf_100x50 : scaleOf 100 50 3000 3000 (17/20) = 51/2 := by
  unfold scaleOf
  rw [min_def]
  norm_num

lemma fitNewW_100x50 : fitNewW img100x50 3000 3000 (17/20) = 2550 := by
  unfold fitNewW truncQ
  rw [show img100x50.width = 100 from rfl, show img100x50.height = 50 from rfl,
    scaleOf_100x50]
  rw [if_neg (by norm_num)]
  rw [show ((100 : Nat) : ℚ) * (51/2) = 2550 by norm_num]
  rw [show Int.floor ((2550 : ℚ)) = 2550 from Int.floor_eq_iff.mpr (by norm_num)]
  rfl

lemma fitNewH_100x50 : fitNewH img100x50 3000 3000 (17/20) = 1275 := by
  unfold fitNewH truncQ
  rw [show img100x50.width = 100 from rfl, show img100x50.height = 50 from rfl,
    scaleOf_100x50]
  rw [if_neg (by norm_num)]
  rw [show ((50 : Nat) : ℚ) * (51/2) = 1275 by norm_num]
  rw [show Int.floor ((1275 : ℚ)) = 1275 from Int.floor_eq_iff.mpr (by norm_num)]
  rfl

/-- C3 amended: `fit_to_canvas` computes `scale = min(W/width, H/height) *
scale_factor` and resizes to `(int(width*scale), int(height*scale))` —
truncation, not `round(...)` — pasting onto a white 255 canvas of size (W,H)
at floor-division offsets `((W-new_w)//2, (H-new_h)//2)`; the 100x50 bitmap
on a 3000x3000 canvas at scale factor 0.85 still yields 2550x1275 at offsets
(225, 862), since those values are exact. -/
theorem fit_c3_amended :
    (∀ (R : Image → Nat → Nat → Image) (img : Image) (W H : Nat) (sf : ℚ),
      (∀ i a b, (R i a b).width = a ∧ (R i a b).height = b) →
      0 < img.width → 0 < img.height → 0 ≤ sf → sf ≤ 1 →
      (center_scale_to_canvas R img W H sf).width = W
      ∧ (center_scale_to_canvas R img W H sf).height = H
      ∧ (∀ x y : Nat, (center_scale_to_canvas R img W H sf).pix x y
          = (fit_to_canvas_trunc R img W H sf).pix x y))
    ∧ fitNewW img100x50 3000 3000 (17/20) = 2550
    ∧ fitNewH img100x50 3000 3000 (17/20) = 1275
    ∧ (3000 - fitNewW img100x50 3000 3000 (17/20)) / 2 = 225
    ∧ (3000 - fitNewH img100x50 3000 3000 (17/20)) / 2 = 862
    ∧ (center_scale_to_canvas constBlackResampler img100x50 3000 3000 (17/20)).pix 225 862 = 0
    ∧ (center_scale_to_canvas constBlackResampler img100x50 3000 3000 (17/20)).pix 224 862
        = 255 := by
  refine ⟨?_, fitNewW_100x50, fitNewH_100x50, ?_, ?_, ?_, ?_⟩
  · intro R img W H sf hR _ _ _ _
    exact ⟨rfl, rfl, fun x y => center_scale_pix R img W H sf hR x y⟩
  · rw [fitNewW_100x50]
  · rw [fitNewH_100x50]
  · unfold center_scale_to_canvas Image.paste Image.new
    simp only [fitNewW_100x50, fitNewH_100x50]
    rw [if_pos (by norm_num [constBlackResampler])]
    rfl
  · unfold center_scale_to_canvas Image.paste Image.new
    simp only [fitNewW_100x50, fitNewH_100x50]
    rw [if_neg (by norm_num [constBlackResampler])]

/-- Witness for the amended C3 at a concrete resampler, bitmap, canvas and
scale factor. -/
theorem fit_c3_amended_witness :
    0 < img100x50.width ∧ 0 < img100x50.height ∧ (0 : ℚ) ≤ 1 ∧ (1 : ℚ) ≤ 1
    ∧ (center_scale_to_canvas constBlackResampler img100x50 400 400 1).pix 0 0
        = (fit_to_canvas_trunc constBlackResampler img100x50 400 400 1).pix 0 0 :=
  ⟨by decide, by decide, zero_le_one, le_refl 1,
    (fit_c3_amended.1 constBlackResampler img100x50 400 400 1
      (fun _ a b => ⟨rfl, rfl⟩) (by decide) (by decide) zero_le_one (le_refl 1)).2.2 0 0⟩

/-! ### Batch pipeline (`process_images`, app.py lines 120-268)

Each upload is a record with the original filename, the secure base name
(werkzeug's `secure_filename`, an external collaborator, followed by
`os.path.splitext`), its byte size, and boolean outcomes for the operations
on it: raster decoding, the `potrace -s` outline trace, the `potrace -e`
filled trace and the ghostscript CMYK conversion.  The three output
directories that feed the final archive are modelled as lists of
(filename, content-provenance) pairs; `temp_bw_dir` never reaches the
archive and is omitted.  Pixel buffers feed only external tools and are not
tracked here; the group stage's geometry is verified separately through
`composeGrid` and `center_scale_to_canvas`. -/

inductive FileTag where
  | svgOutline (base : String)
  | rawEps (base : String)
  | finalEps (base : String)
  | rawGroupEps (gkey : String)
  | finalGroupEps (gkey : String)
deriving DecidableEq

structure FileUpload where
  filename : String
  baseName : String
  size : Nat
  decodable : Bool
  svgOk : Bool
  epsOk : Bool
  cmykOk : Bool
deriving DecidableEq

def ALLOWED_EXTENSIONS : List String := ["png", "jpg", "jpeg"]

def MAX_FILE_SIZE : Nat := 10 * 1024 * 1024

/-- The characters after the last dot: Python `filename.rsplit('.', 1)[1]`
when a dot is present. -/
def extAfterLastDot (l : List Char) : List Char :=
  (l.reverse.takeWhile (fun c => c != '.')).reverse

/-- app.py lines 42-44: a dot is present and the lowercased extension after
the last dot is allowed. -/
def allowed_file (filename : String) : Bool :=
  filename.data.contains ('.')
    && ALLOWED_EXTENSIONS.contains
        (String.mk ((extAfterLastDot filename.data).map Char.toLower))

/-- Creating a file: any existing entry with the same name is overwritten. -/
def fsCreate (d : List (String × FileTag)) (n : String) (t : FileTag) :
    List (String × FileTag) :=
  (d.filter (fun e => e.1 != n)) ++ [(n, t)]

/-- `os.remove`. -/
def fsRemove (d : List (String × FileTag)) (n : String) : List (String × FileTag) :=
  d.filter (fun e => e.1 != n)

/-- app.py lines 186-197: `potrace -e` writes the raw EPS (when it succeeds);
ghostscript writes the final EPS (when it succeeds); `os.remove` then deletes
the raw EPS.  A `potrace` failure raises before any of that, and the
swallowed ghostscript failure does not skip the removal. -/
def epsStep (f : FileUpload) (d : List (String × FileTag)) : List (String × FileTag) :=
  if f.epsOk then
    let d1 := fsCreate d (f.baseName ++ "_raw.eps") (FileTag.rawEps f.baseName)
    let d2 := if f.cmykOk then
        fsCreate d1 (f.baseName ++ ".eps") (FileTag.finalEps f.baseName)
      else d1
    fsRemove d2 (f.baseName ++ "_raw.eps")
  else d

structure PipeState where
  svgDir : List (String × FileTag)
  epsDir : List (String × FileTag)
  groupDir : List (String × FileTag)
  groups : List (String × List String)
deriving DecidableEq

def initState : PipeState := ⟨[], [], [], []⟩

/-- `defaultdict(list)` append: extend an existing key in place, else add the
key at the end (Python dicts preserve insertion order). -/
def appendGroup : List (String × List String) → String → String → List (String × List String)
  | [], k, v => [(k, [v])]
  | (k1, vs) :: rest, k, v =>
    if k1 = k then (k1, vs ++ [v]) :: rest
    else (k1, vs) :: appendGroup rest k v

/-- app.py lines 162-200, one file of Step 1: skip on disallowed extension,
oversize, decode failure or outline-trace failure; otherwise record the SVG,
run the EPS step when requested, and append to the file's group. -/
def step1File (includeEps : Bool) (st : PipeState) (f : FileUpload) : PipeState :=
  if !(allowed_file f.filename) then st
  else if MAX_FILE_SIZE < f.size then st
  else if !f.decodable then st
  else if !f.svgOk then st
  else
    { st with
      svgDir := fsCreate st.svgDir (f.baseName ++ ".svg") (FileTag.svgOutline f.baseName)
      epsDir := if includeEps then epsStep f st.epsDir else st.epsDir
      groups := appendGroup st.groups (groupKey f.baseName) f.baseName }

/-- app.py lines 204-233, one group of Step 2: groups of size at most one are
skipped; otherwise `potrace -e` writes the raw group EPS, ghostscript the
final group EPS, and the raw file is removed (`gTrace`/`gCmyk` give the
per-group outcomes of the two external tools). -/
def groupStep (gTrace gCmyk : String → Bool) (st : PipeState)
    (g : String × List String) : PipeState :=
  if g.2.length ≤ 1 then st
  else if gTrace g.1 then
    let d1 := fsCreate st.groupDir (g.1 ++ "_final_raw.eps") (FileTag.rawGroupEps g.1)
    let d2 := if gCmyk g.1 then
        fsCreate d1 (g.1 ++ "_final.eps") (FileTag.finalGroupEps g.1)
      else d1
    { st with groupDir := fsRemove d2 (g.1 ++ "_final_raw.eps") }
  else st

/-- app.py lines 236-252: the archive gathers `svg/`, and when EPS output is
requested also `eps/` and `groups/`. -/
def zipOf (includeEps : Bool) (st : PipeState) : List (String × FileTag) :=
  st.svgDir.map (fun e => ("svg/" ++ e.1, e.2))
    ++ (if includeEps then
          st.epsDir.map (fun e => ("eps/" ++ e.1, e.2))
            ++ st.groupDir.map (fun e => ("groups/" ++ e.1, e.2))
        else [])

inductive BatchResult where
  | failedDeps
  | failedNoFiles
  | success (zipFiles : List (String × FileTag))
deriving DecidableEq

def BatchResult.zipList : BatchResult → List (String × FileTag)
  | BatchResult.success z => z
  | _ => []

def BatchResult.isFailed : BatchResult → Bool
  | BatchResult.success _ => false
  | _ => true

/-- Steps 1, 2 and packaging for a validated batch. -/
def batchZip (files : List FileUpload) (includeEps groupByPfx : Bool)
    (gTrace gCmyk : String → Bool) : List (String × FileTag) :=
  let st1 := files.foldl (step1File includeEps) initState
  let st2 := if groupByPfx && includeEps
    then st1.groups.foldl (groupStep gTrace gCmyk) st1 else st1
  zipOf includeEps st2

/-- app.py lines 120-268: dependency precheck, the `no files selected` check
(empty list or empty first filename), Step 1 over all files, Step 2 over the
groups when requested, then packaging. -/
def process_images (depsOk : Bool) (files : List FileUpload)
    (includeEps groupByPfx : Bool) (gTrace gCmyk : String → Bool) : BatchResult :=
  if !depsOk then BatchResult.failedDeps
  else
    match files with
    | [] => BatchResult.failedNoFiles
    | f0 :: _ =>
      if f0.filename = "" then BatchResult.failedNoFiles
      else BatchResult.success (batchZip files includeEps groupByPfx gTrace gCmyk)

def isRawTag : FileTag → Bool
  | FileTag.rawEps _ => true
  | FileTag.rawGroupEps _ => true
  | _ => false

def isGroupStageTag : FileTag → Bool
  | FileTag.rawGroupEps _ => true
  | FileTag.finalGroupEps _ => true
  | _ => false

def allTrue : String → Bool := fun _ => true

def fPart1 : FileUpload := ⟨"part1.png", "part1", 100, true, true, true, true⟩

def fPart2 : FileUpload := ⟨"part2.png", "part2", 100, true, true, true, true⟩


lemma string_append_cancel (p q s : String) (h : p ++ s = q ++ s) : p = q := by
  have hd : p.data ++ s.data = q.data ++ s.data := by
    simpa [String.data_append] using congrArg String.data h
  have hpq : p.data = q.data := (List.append_inj' hd rfl).1
  exact congrArg String.mk hpq

lemma suffix_final_ne_raw (X Y : String) :
    X ++ "_final.eps" ≠ Y ++ "_final_raw.eps" := by
  intro h
  have hd : X.data ++ ("_final.eps" : String).data
      = Y.data ++ ("_final_raw.eps" : String).data := by
    simpa [String.data_append] using congrArg String.data h
  have hr := congrArg List.reverse hd
  rw [List.reverse_append, List.reverse_append] at hr
  have h4 := congrArg (fun l => l[4]?) hr
  simp only at h4
  rw [List.getElem?_append_left (by decide), List.getElem?_append_left (by decide)] at h4
  exact absurd h4 (by decide)

lemma step1File_skip (i : Bool) (st : PipeState) (f : FileUpload)
    (h : allowed_file f.filename = false ∨ MAX_FILE_SIZE < f.size
      ∨ f.decodable = false ∨ f.svgOk = false) :
    step1File i st f = st := by
  unfold step1File
  rcases h with h | h | h | h
  · simp [h]
  · simp [h]
  · simp [h]
  · simp [h]

lemma foldl_step1_middle_skip (i : Bool) (xs ys : List FileUpload) (f : FileUpload)
    (st : PipeState) (hf : ∀ st1 : PipeState, step1File i st1 f = st1) :
    (xs ++ f :: ys).foldl (step1File i) st = (xs ++ ys).foldl (step1File i) st := by
  rw [List.foldl_append, List.foldl_append, List.foldl_cons, hf]

lemma batchZip_middle_skip (x0 : FileUpload) (xs ys : List FileUpload) (f : FileUpload)
    (iE gbp : Bool) (gT gC : String → Bool)
    (hf : ∀ st1 : PipeState, step1File iE st1 f = st1) :
    batchZip (x0 :: (xs ++ f :: ys)) iE gbp gT gC
      = batchZip (x0 :: (xs ++ ys)) iE gbp gT gC := by
  unfold batchZip
  rw [List.foldl_cons, List.foldl_cons, foldl_step1_middle_skip iE xs ys f _ hf]

lemma process_images_eq_success (files : List FileUpload) (f0 : FileUpload)
    (rest : List FileUpload) (iE gbp : Bool) (gT gC : String → Bool)
    (hfiles : files = f0 :: rest) (hname : f0.filename ≠ "") :
    process_images true files iE gbp gT gC
      = BatchResult.success (batchZip files iE gbp gT gC) := by
  subst hfiles
  show (if f0.filename = "" then BatchResult.failedNoFiles
    else BatchResult.success (batchZip (f0 :: rest) iE gbp gT gC)) = _
  rw [if_neg hname]

/-- An upload with a disallowed extension. -/
def fTxt : FileUpload := ⟨"a.txt", "a", 4, true, true, true, true⟩

/-- An upload over the 10 MiB limit. -/
def fBig : FileUpload := ⟨"b.png", "b", 10 * 1024 * 1024 + 1, true, true, true, true⟩

/-- C6 counterexample: a batch whose only file has a disallowed extension
passes the `no files selected` check (its filename is non-empty), every file
is then skipped in Step 1, and the request completes successfully with an
empty output archive — it is not rejected as a batch failure. -/
theorem zero_valid_c6_counterexample :
    process_images true [fTxt] true true allTrue allTrue = BatchResult.success []
    ∧ (process_images true [fTxt] true true allTrue allTrue).isFailed = false := by
  constructor
  · decide
  · decide

/-- C6 amended: the request is rejected only when the uploaded list is empty
or the first file's name is empty; when files are listed (first name
non-empty) but none is valid — disallowed extension, oversize, or
undecodable — the batch completes successfully with an empty output bundle
instead of failing. -/
theorem zero_valid_c6_amended (files : List FileUpload) (f0 : FileUpload)
    (rest : List FileUpload) (iE gbp : Bool) (gT gC : String → Bool)
    (hfiles : files = f0 :: rest) (hname : f0.filename ≠ "")
    (hinvalid : ∀ f ∈ files, allowed_file f.filename = false
      ∨ MAX_FILE_SIZE < f.size ∨ f.decodable = false) :
    process_images true files iE gbp gT gC = BatchResult.success [] := by
  rw [process_images_eq_success files f0 rest iE gbp gT gC hfiles hname]
  have hfold : files.foldl (step1File iE) initState = initState := by
    have : ∀ (fs : List FileUpload) (st : PipeState),
        (∀ f ∈ fs, allowed_file f.filename = false
          ∨ MAX_FILE_SIZE < f.size ∨ f.decodable = false) →
        fs.foldl (step1File iE) st = st := by
      intro fs
      induction fs with
      | nil => intro st _; rfl
      | cons g gs ih =>
        intro st hall
        rw [List.foldl_cons, step1File_skip iE st g ?hg]
        · exact ih st (fun f hf => hall f (List.mem_cons_of_mem _ hf))
        case hg =>
          rcases hall g (List.mem_cons_self _ _) with h | h | h
          · exact Or.inl h
          · exact Or.inr (Or.inl h)
          · exact Or.inr (Or.inr (Or.inl h))
    exact this files initState hinvalid
  simp only [batchZip]
  rw [hfold]
  cases hgb : (gbp && iE) with
  | false =>
    rw [if_neg Bool.false_ne_true]
    cases iE <;> rfl
  | true =>
    rw [if_pos rfl]
    cases iE <;> rfl

/-- Witness for the amended C6: a single oversized upload yields a successful
empty bundle. -/
theorem zero_valid_c6_witness :
    fBig.filename ≠ ""
    ∧ allowed_file fBig.filename = true
    ∧ MAX_FILE_SIZE < fBig.size
    ∧ process_images true [fBig] true true allTrue allTrue = BatchResult.success [] :=
  ⟨by decide, by decide, by decide,
    zero_valid_c6_amended [fBig] fBig [] true true allTrue allTrue rfl
      (by decide) (by decide)⟩

/-- C8: an undecodable upload is skipped entirely — the batch result is
exactly the result of the batch without it (so it joins no group and
contributes no artifact), and the batch still succeeds. -/
theorem undecodable_skipped_c8 (x0 : FileUpload) (xs ys : List FileUpload)
    (bad : FileUpload) (iE gbp : Bool) (gT gC : String → Bool)
    (hname : x0.filename ≠ "") (hbad : bad.decodable = false) :
    process_images true (x0 :: (xs ++ bad :: ys)) iE gbp gT gC
      = process_images true (x0 :: (xs ++ ys)) iE gbp gT gC
    ∧ (process_images true (x0 :: (xs ++ bad :: ys)) iE gbp gT gC).isFailed = false := by
  have hf : ∀ st : PipeState, step1File iE st bad = st := fun st =>
    step1File_skip iE st bad (Or.inr (Or.inr (Or.inl hbad)))
  have h1 := process_images_eq_success (x0 :: (xs ++ bad :: ys)) x0 (xs ++ bad :: ys)
    iE gbp gT gC rfl hname
  have h2 := process_images_eq_success (x0 :: (xs ++ ys)) x0 (xs ++ ys)
    iE gbp gT gC rfl hname
  constructor
  · rw [h1, h2, batchZip_middle_skip x0 xs ys bad iE gbp gT gC hf]
  · rw [h1]; rfl

/-- An upload whose bytes fail to decode as a raster image. -/
def fBad : FileUpload := ⟨"c.png", "c", 50, false, true, true, true⟩

/-- Witness for C8: one valid file plus one undecodable file behaves exactly
like the valid file alone, successfully. -/
theorem undecodable_skipped_c8_witness :
    fPart1.filename ≠ "" ∧ fBad.decodable = false
    ∧ process_images true [fPart1, fBad] true true allTrue allTrue
        = process_images true [fPart1] true true allTrue allTrue
    ∧ (process_images true [fPart1, fBad] true true allTrue allTrue).isFailed = false :=
  ⟨by decide, by decide,
    (undecodable_skipped_c8 fPart1 [] [] fBad true true allTrue allTrue
      (by decide) (by decide)).1,
    (undecodable_skipped_c8 fPart1 [] [] fBad true true allTrue allTrue
      (by decide) (by decide)).2⟩

/-! ### Directory content invariants

After every pipeline step, the SVG directory holds only outline files, and
the two EPS directories hold only converted (final) files: every raw
intermediate created by a successful trace is removed before the step
ends. -/

def svgDirOK (d : List (String × FileTag)) : Prop :=
  ∀ e ∈ d, ∃ b, e.2 = FileTag.svgOutline b

def epsDirOK (d : List (String × FileTag)) : Prop :=
  ∀ e ∈ d, ∃ b, e.2 = FileTag.finalEps b

def groupDirOK (d : List (String × FileTag)) : Prop :=
  ∀ e ∈ d, ∃ k, e.2 = FileTag.finalGroupEps k

def pipeInv (st : PipeState) : Prop :=
  svgDirOK st.svgDir ∧ epsDirOK st.epsDir ∧ groupDirOK st.groupDir

lemma mem_of_mem_fsCreate {d : List (String × FileTag)} {n : String} {t : FileTag}
    {e : String × FileTag} (he : e ∈ fsCreate d n t) : e ∈ d ∨ e = (n, t) := by
  unfold fsCreate at he
  rcases List.mem_append.mp he with h | h
  · exact Or.inl (List.mem_filter.mp h).1
  · exact Or.inr (by simpa using h)

lemma mem_of_mem_fsRemove {d : List (String × FileTag)} {n : String}
    {e : String × FileTag} (he : e ∈ fsRemove d n) : e ∈ d ∧ e.1 ≠ n := by
  unfold fsRemove at he
  have h := List.mem_filter.mp he
  refine ⟨h.1, ?_⟩
  simpa using h.2

lemma mem_fsCreate_self (d : List (String × FileTag)) (n : String) (t : FileTag) :
    (n, t) ∈ fsCreate d n t := by
  unfold fsCreate
  exact List.mem_append_right _ (List.mem_singleton.mpr rfl)

lemma mem_fsCreate_of_ne {d : List (String × FileTag)} {n : String} {t : FileTag}
    {e : String × FileTag} (he : e ∈ d) (hne : e.1 ≠ n) : e ∈ fsCreate d n t := by
  unfold fsCreate
  exact List.mem_append_left _ (List.mem_filter.mpr ⟨he, by simpa using hne⟩)

lemma mem_fsRemove_of_ne {d : List (String × FileTag)} {n : String}
    {e : String × FileTag} (he : e ∈ d) (hne : e.1 ≠ n) : e ∈ fsRemove d n :=
  List.mem_filter.mpr ⟨he, by simpa using hne⟩

lemma epsStep_epsDirOK (f : FileUpload) (d : List (String × FileTag))
    (h : epsDirOK d) : epsDirOK (epsStep f d) := by
  by_cases heps : f.epsOk = true
  · intro e he
    by_cases hc : f.cmykOk = true
    · simp only [epsStep, heps, hc, if_true] at he
      obtain ⟨he2, hne⟩ := mem_of_mem_fsRemove he
      rcases mem_of_mem_fsCreate he2 with he3 | rfl
      · rcases mem_of_mem_fsCreate he3 with he4 | rfl
        · exact h e he4
        · exact absurd rfl hne
      · exact ⟨f.baseName, rfl⟩
    · simp only [epsStep, heps, hc, if_true, if_false] at he
      obtain ⟨he2, hne⟩ := mem_of_mem_fsRemove he
      rcases mem_of_mem_fsCreate he2 with he3 | rfl
      · exact h e he3
      · exact absurd rfl hne
  · intro e he
    simp only [epsStep, heps, if_false] at he
    exact h e he

lemma pipeInv_step1File (i : Bool) (st : PipeState) (f : FileUpload)
    (h : pipeInv st) : pipeInv (step1File i st f) := by
  unfold step1File
  by_cases h1 : (!(allowed_file f.filename)) = true
  · rw [if_pos h1]; exact h
  rw [if_neg h1]
  by_cases h2 : MAX_FILE_SIZE < f.size
  · rw [if_pos h2]; exact h
  rw [if_neg h2]
  by_cases h3 : (!f.decodable) = true
  · rw [if_pos h3]; exact h
  rw [if_neg h3]
  by_cases h4 : (!f.svgOk) = true
  · rw [if_pos h4]; exact h
  rw [if_neg h4]
  refine ⟨?_, ?_, h.2.2⟩
  · intro e he
    rcases mem_of_mem_fsCreate he with he2 | rfl
    · exact h.1 e he2
    · exact ⟨f.baseName, rfl⟩
  · show epsDirOK (if i = true then epsStep f st.epsDir else st.epsDir)
    by_cases hi : i = true
    · rw [if_pos hi]; exact epsStep_epsDirOK f st.epsDir h.2.1
    · rw [if_neg hi]; exact h.2.1

lemma pipeInv_groupStep (gT gC : String → Bool) (st : PipeState)
    (g : String × List String) (h : pipeInv st) : pipeInv (groupStep gT gC st g) := by
  by_cases h1 : g.2.length ≤ 1
  · simp only [groupStep, h1, if_true]
    exact h
  by_cases h2 : gT g.1 = true
  · refine ⟨?_, ?_, ?_⟩
    · simp only [groupStep, h1, h2, if_true, if_false]
      exact h.1
    · simp only [groupStep, h1, h2, if_true, if_false]
      exact h.2.1
    · intro e he
      by_cases hc : gC g.1 = true
      · simp only [groupStep, h1, h2, hc, if_true, if_false] at he
        obtain ⟨he2, hne⟩ := mem_of_mem_fsRemove he
        rcases mem_of_mem_fsCreate he2 with he3 | rfl
        · rcases mem_of_mem_fsCreate he3 with he4 | rfl
          · exact h.2.2 e he4
          · exact absurd rfl hne
        · exact ⟨g.1, rfl⟩
      · simp only [groupStep, h1, h2, hc, if_true, if_false] at he
        obtain ⟨he2, hne⟩ := mem_of_mem_fsRemove he
        rcases mem_of_mem_fsCreate he2 with he3 | rfl
        · exact h.2.2 e he3
        · exact absurd rfl hne
  · simp only [groupStep, h1, h2, if_true, if_false]
    exact h

lemma pipeInv_foldl_step1 (i : Bool) (files : List FileUpload) :
    ∀ st : PipeState, pipeInv st → pipeInv (files.foldl (step1File i) st) := by
  induction files with
  | nil => intro st h; exact h
  | cons f fs ih =>
    intro st h
    rw [List.foldl_cons]
    exact ih _ (pipeInv_step1File i st f h)

lemma pipeInv_foldl_group (gT gC : String → Bool) (gs : List (String × List String)) :
    ∀ st : PipeState, pipeInv st → pipeInv (gs.foldl (groupStep gT gC) st) := by
  induction gs with
  | nil => intro st h; exact h
  | cons g rest ih =>
    intro st h
    rw [List.foldl_cons]
    exact ih _ (pipeInv_groupStep gT gC st g h)

lemma zipOf_tags (iE : Bool) (st : PipeState) (h : pipeInv st) :
    ∀ e ∈ zipOf iE st, (∃ b, e.2 = FileTag.svgOutline b)
      ∨ (∃ b, e.2 = FileTag.finalEps b) ∨ (∃ k, e.2 = FileTag.finalGroupEps k) := by
  intro e he
  unfold zipOf at he
  rcases List.mem_append.mp he with hsvg | hrest
  · obtain ⟨e0, he0, heq⟩ := List.mem_map.mp hsvg
    obtain ⟨b, hb⟩ := h.1 e0 he0
    exact Or.inl ⟨b, by rw [← heq]; exact hb⟩
  · by_cases hi : iE = true
    · rw [if_pos hi] at hrest
      rcases List.mem_append.mp hrest with heps | hgrp
      · obtain ⟨e0, he0, heq⟩ := List.mem_map.mp heps
        obtain ⟨b, hb⟩ := h.2.1 e0 he0
        exact Or.inr (Or.inl ⟨b, by rw [← heq]; exact hb⟩)
      · obtain ⟨e0, he0, heq⟩ := List.mem_map.mp hgrp
        obtain ⟨k, hk⟩ := h.2.2 e0 he0
        exact Or.inr (Or.inr ⟨k, by rw [← heq]; exact hk⟩)
    · rw [if_neg hi] at hrest
      exact absurd hrest (List.not_mem_nil e)

lemma batchZip_tags (files : List FileUpload) (iE gbp : Bool) (gT gC : String → Bool) :
    ∀ e ∈ batchZip files iE gbp gT gC, (∃ b, e.2 = FileTag.svgOutline b)
      ∨ (∃ b, e.2 = FileTag.finalEps b) ∨ (∃ k, e.2 = FileTag.finalGroupEps k) := by
  intro e he
  have hinit : pipeInv initState :=
    ⟨fun e h => absurd h (List.not_mem_nil e), fun e h => absurd h (List.not_mem_nil e),
      fun e h => absurd h (List.not_mem_nil e)⟩
  have h1 : pipeInv (files.foldl (step1File iE) initState) :=
    pipeInv_foldl_step1 iE files initState hinit
  simp only [batchZip] at he
  by_cases hgb : (gbp && iE) = true
  · rw [if_pos hgb] at he
    exact zipOf_tags iE _ (pipeInv_foldl_group gT gC _ _ h1) e he
  · rw [if_neg hgb] at he
    exact zipOf_tags iE _ h1 e he

lemma process_zipList (d : Bool) (files : List FileUpload) (iE gbp : Bool)
    (gT gC : String → Bool) :
    (process_images d files iE gbp gT gC).zipList = batchZip files iE gbp gT gC
    ∨ (process_images d files iE gbp gT gC).zipList = [] := by
  unfold process_images
  by_cases hd : (!d) = true
  · rw [if_pos hd]; exact Or.inr rfl
  · rw [if_neg hd]
    cases files with
    | nil => exact Or.inr rfl
    | cons f0 rest =>
      show (if f0.filename = "" then BatchResult.failedNoFiles
          else BatchResult.success (batchZip (f0 :: rest) iE gbp gT gC)).zipList
            = batchZip (f0 :: rest) iE gbp gT gC
        ∨ (if f0.filename = "" then BatchResult.failedNoFiles
          else BatchResult.success (batchZip (f0 :: rest) iE gbp gT gC)).zipList = []
      by_cases hn : f0.filename = ""
      · rw [if_pos hn]; exact Or.inr rfl
      · rw [if_neg hn]; exact Or.inl rfl

/-- C9: however the external tools behave, the packaged archive never
contains a raw intermediate file: every raw EPS (individual or group) that a
successful trace created is removed before its step finishes, on the
conversion-succeeded, conversion-failed and trace-failed paths alike. -/
theorem raw_cleanup_c9 (depsOk : Bool) (files : List FileUpload) (iE gbp : Bool)
    (gT gC : String → Bool) :
    ∀ e ∈ (process_images depsOk files iE gbp gT gC).zipList, isRawTag e.2 = false := by
  intro e he
  rcases process_zipList depsOk files iE gbp gT gC with hz | hz
  · rw [hz] at he
    rcases batchZip_tags files iE gbp gT gC e he with ⟨b, hb⟩ | ⟨b, hb⟩ | ⟨k, hk⟩
    · rw [hb]; rfl
    · rw [hb]; rfl
    · rw [hk]; rfl
  · rw [hz] at he
    exact absurd he (List.not_mem_nil e)

/-- Witness for C9 at a concrete batch and archive entry. -/
theorem raw_cleanup_c9_witness :
    ("svg/part1.svg", FileTag.svgOutline "part1")
        ∈ (process_images true [fPart1, fPart2] true true allTrue allTrue).zipList
    ∧ isRawTag (FileTag.svgOutline "part1") = false :=
  ⟨by decide,
    raw_cleanup_c9 true [fPart1, fPart2] true true allTrue allTrue
      ("svg/part1.svg", FileTag.svgOutline "part1") (by decide)⟩

lemma step1File_svg_mem (i : Bool) (st : PipeState) (f : FileUpload)
    (hA : allowed_file f.filename = true) (hS : ¬ (MAX_FILE_SIZE < f.size))
    (hD : f.decodable = true) (hV : f.svgOk = true) :
    (f.baseName ++ ".svg", FileTag.svgOutline f.baseName) ∈ (step1File i st f).svgDir := by
  simp only [step1File, hA, hS, hD, hV, Bool.not_true, if_false]
  exact mem_fsCreate_self _ _ _

lemma step1File_svg_mem_mono (i : Bool) (st : PipeState) (g : FileUpload) (b : String)
    (hne : g.baseName ≠ b)
    (hmem : (b ++ ".svg", FileTag.svgOutline b) ∈ st.svgDir) :
    (b ++ ".svg", FileTag.svgOutline b) ∈ (step1File i st g).svgDir := by
  by_cases h1 : allowed_file g.filename = true
  · by_cases h2 : MAX_FILE_SIZE < g.size
    · simp only [step1File, h1, h2, Bool.not_true, if_false, if_true]
      exact hmem
    · by_cases h3 : g.decodable = true
      · by_cases h4 : g.svgOk = true
        · simp only [step1File, h1, h2, h3, h4, Bool.not_true, if_false]
          refine mem_fsCreate_of_ne hmem ?_
          intro hcontra
          exact hne (string_append_cancel b g.baseName (".svg") hcontra).symm
        · simp only [step1File, h1, h2, h3, h4, Bool.not_true, Bool.not_false,
            if_false, if_true]
          exact hmem
      · simp only [step1File, h1, h2, h3, Bool.not_true, Bool.not_false,
          if_false, if_true]
        exact hmem
  · simp only [step1File, h1, Bool.not_false, if_true]
    exact hmem

lemma foldl_svg_mem (i : Bool) (fs : List FileUpload) :
    ∀ (st : PipeState) (b : String), (∀ g ∈ fs, g.baseName ≠ b) →
    (b ++ ".svg", FileTag.svgOutline b) ∈ st.svgDir →
    (b ++ ".svg", FileTag.svgOutline b) ∈ (fs.foldl (step1File i) st).svgDir := by
  induction fs with
  | nil => intro st b _ hmem; exact hmem
  | cons g gs ih =>
    intro st b hall hmem
    rw [List.foldl_cons]
    exact ih _ b (fun g2 hg2 => hall g2 (List.mem_cons_of_mem _ hg2))
      (step1File_svg_mem_mono i st g b (hall g (List.mem_cons_self _ _)) hmem)

lemma epsStep_finalEps_src (f : FileUpload) (d : List (String × FileTag)) (b : String)
    (e : String × FileTag) (he : e ∈ epsStep f d) (htag : e.2 = FileTag.finalEps b) :
    e ∈ d ∨ (f.baseName = b ∧ f.epsOk = true ∧ f.cmykOk = true) := by
  by_cases heps : f.epsOk = true
  · by_cases hc : f.cmykOk = true
    · simp only [epsStep, heps, hc, if_true] at he
      obtain ⟨he2, hne⟩ := mem_of_mem_fsRemove he
      rcases mem_of_mem_fsCreate he2 with he3 | rfl
      · rcases mem_of_mem_fsCreate he3 with he4 | rfl
        · exact Or.inl he4
        · exact absurd rfl hne
      · refine Or.inr ⟨?_, heps, hc⟩
        have : FileTag.finalEps f.baseName = FileTag.finalEps b := htag
        injection this
    · simp only [epsStep, heps, hc, if_true, if_false] at he
      obtain ⟨he2, hne⟩ := mem_of_mem_fsRemove he
      rcases mem_of_mem_fsCreate he2 with he3 | rfl
      · exact Or.inl he3
      · exact absurd rfl hne
  · simp only [epsStep, heps, if_false] at he
    exact Or.inl he

lemma step1File_finalEps_src (i : Bool) (st : PipeState) (g : FileUpload) (b : String)
    (e : String × FileTag) (he : e ∈ (step1File i st g).epsDir)
    (htag : e.2 = FileTag.finalEps b)
    (hnot : ¬ (g.baseName = b ∧ g.epsOk = true ∧ g.cmykOk = true)) : e ∈ st.epsDir := by
  by_cases h1 : allowed_file g.filename = true
  · by_cases h2 : MAX_FILE_SIZE < g.size
    · simpa only [step1File, h1, h2, Bool.not_true, if_false, if_true] using he
    · by_cases h3 : g.decodable = true
      · by_cases h4 : g.svgOk = true
        · simp only [step1File, h1, h2, h3, h4, Bool.not_true, if_false] at he
          by_cases hi : i = true
          · rw [if_pos hi] at he
            rcases epsStep_finalEps_src g st.epsDir b e he htag with h | h
            · exact h
            · exact absurd h hnot
          · rw [if_neg hi] at he
            exact he
        · simpa only [step1File, h1, h2, h3, h4, Bool.not_true, Bool.not_false,
            if_false, if_true] using he
      · simpa only [step1File, h1, h2, h3, Bool.not_true, Bool.not_false,
          if_false, if_true] using he
  · simpa only [step1File, h1, Bool.not_false, if_true] using he

lemma foldl_finalEps_src (i : Bool) (fs : List FileUpload) :
    ∀ (st : PipeState) (b : String) (e : String × FileTag),
    (∀ g ∈ fs, ¬ (g.baseName = b ∧ g.epsOk = true ∧ g.cmykOk = true)) →
    e ∈ (fs.foldl (step1File i) st).epsDir → e.2 = FileTag.finalEps b →
    e ∈ st.epsDir := by
  induction fs with
  | nil => intro st b e _ he _; exact he
  | cons g gs ih =>
    intro st b e hall he htag
    rw [List.foldl_cons] at he
    exact step1File_finalEps_src i st g b e
      (ih _ b e (fun g2 hg2 => hall g2 (List.mem_cons_of_mem _ hg2)) he htag)
      htag (hall g (List.mem_cons_self _ _))

lemma groupStep_svgDir (gT gC : String → Bool) (st : PipeState)
    (g : String × List String) : (groupStep gT gC st g).svgDir = st.svgDir := by
  by_cases h1 : g.2.length ≤ 1
  · simp only [groupStep, h1, if_true]
  by_cases h2 : gT g.1 = true
  · simp only [groupStep, h1, h2, if_true, if_false]
  · simp only [groupStep, h1, h2, if_true, if_false, Bool.false_eq_true]

lemma groupStep_epsDir (gT gC : String → Bool) (st : PipeState)
    (g : String × List String) : (groupStep gT gC st g).epsDir = st.epsDir := by
  by_cases h1 : g.2.length ≤ 1
  · simp only [groupStep, h1, if_true]
  by_cases h2 : gT g.1 = true
  · simp only [groupStep, h1, h2, if_true, if_false]
  · simp only [groupStep, h1, h2, if_true, if_false, Bool.false_eq_true]

lemma groupStep_groups (gT gC : String → Bool) (st : PipeState)
    (g : String × List String) : (groupStep gT gC st g).groups = st.groups := by
  by_cases h1 : g.2.length ≤ 1
  · simp only [groupStep, h1, if_true]
  by_cases h2 : gT g.1 = true
  · simp only [groupStep, h1, h2, if_true, if_false]
  · simp only [groupStep, h1, h2, if_true, if_false, Bool.false_eq_true]

lemma foldl_groupStep_svgDir (gT gC : String → Bool) (gs : List (String × List String)) :
    ∀ st : PipeState, (gs.foldl (groupStep gT gC) st).svgDir = st.svgDir := by
  induction gs with
  | nil => intro st; rfl
  | cons g rest ih =>
    intro st
    rw [List.foldl_cons, ih, groupStep_svgDir]

lemma foldl_groupStep_epsDir (gT gC : String → Bool) (gs : List (String × List String)) :
    ∀ st : PipeState, (gs.foldl (groupStep gT gC) st).epsDir = st.epsDir := by
  induction gs with
  | nil => intro st; rfl
  | cons g rest ih =>
    intro st
    rw [List.foldl_cons, ih, groupStep_epsDir]

lemma zipList_success (z : List (String × FileTag)) :
    (BatchResult.success z).zipList = z := rfl

lemma zipOf_svg_mem (iE : Bool) (st : PipeState) (e : String × FileTag)
    (he : e ∈ st.svgDir) : ("svg/" ++ e.1, e.2) ∈ zipOf iE st := by
  unfold zipOf
  exact List.mem_append_left _ (List.mem_map_of_mem _ he)

lemma zipOf_mem_src (iE : Bool) (st : PipeState) (e : String × FileTag)
    (he : e ∈ zipOf iE st) :
    (∃ e0 ∈ st.svgDir, e.2 = e0.2) ∨ (∃ e0 ∈ st.epsDir, e.2 = e0.2)
      ∨ (∃ e0 ∈ st.groupDir, e.2 = e0.2) := by
  unfold zipOf at he
  rcases List.mem_append.mp he with hsvg | hrest
  · obtain ⟨e0, he0, heq⟩ := List.mem_map.mp hsvg
    exact Or.inl ⟨e0, he0, by rw [← heq]⟩
  · by_cases hi : iE = true
    · rw [if_pos hi] at hrest
      rcases List.mem_append.mp hrest with heps | hgrp
      · obtain ⟨e0, he0, heq⟩ := List.mem_map.mp heps
        exact Or.inr (Or.inl ⟨e0, he0, by rw [← heq]⟩)
      · obtain ⟨e0, he0, heq⟩ := List.mem_map.mp hgrp
        exact Or.inr (Or.inr ⟨e0, he0, by rw [← heq]⟩)
    · rw [if_neg hi] at hrest
      exact absurd hrest (List.not_mem_nil e)

lemma pipeInv_initState : pipeInv initState :=
  ⟨fun e h => absurd h (List.not_mem_nil e), fun e h => absurd h (List.not_mem_nil e),
    fun e h => absurd h (List.not_mem_nil e)⟩

lemma batchZip_no_finalEps (files : List FileUpload) (iE gbp : Bool)
    (gT gC : String → Bool) (b : String)
    (hall : ∀ g ∈ files, ¬ (g.baseName = b ∧ g.epsOk = true ∧ g.cmykOk = true)) :
    ∀ e ∈ batchZip files iE gbp gT gC, e.2 ≠ FileTag.finalEps b := by
  intro e he htag
  have h1 : pipeInv (files.foldl (step1File iE) initState) :=
    pipeInv_foldl_step1 iE files initState pipeInv_initState
  simp only [batchZip] at he
  by_cases hgb : (gbp && iE) = true
  · rw [if_pos hgb] at he
    have h2 := pipeInv_foldl_group gT gC
      (List.foldl (step1File iE) initState files).groups
      (List.foldl (step1File iE) initState files) h1
    rcases zipOf_mem_src iE _ e he with ⟨e0, he0, htag0⟩ | ⟨e0, he0, htag0⟩
      | ⟨e0, he0, htag0⟩
    · obtain ⟨bb, hbb⟩ := h2.1 e0 he0
      rw [htag, hbb] at htag0
      exact FileTag.noConfusion htag0
    · rw [foldl_groupStep_epsDir] at he0
      have he1 : e0 ∈ initState.epsDir := by
        refine foldl_finalEps_src iE files initState b e0 hall he0 ?_
        rw [← htag0, htag]
      exact absurd he1 (List.not_mem_nil e0)
    · obtain ⟨k, hk⟩ := h2.2.2 e0 he0
      rw [htag, hk] at htag0
      exact FileTag.noConfusion htag0
  · rw [if_neg hgb] at he
    rcases zipOf_mem_src iE _ e he with ⟨e0, he0, htag0⟩ | ⟨e0, he0, htag0⟩
      | ⟨e0, he0, htag0⟩
    · obtain ⟨bb, hbb⟩ := h1.1 e0 he0
      rw [htag, hbb] at htag0
      exact FileTag.noConfusion htag0
    · have he1 : e0 ∈ initState.epsDir := by
        refine foldl_finalEps_src iE files initState b e0 hall he0 ?_
        rw [← htag0, htag]
      exact absurd he1 (List.not_mem_nil e0)
    · obtain ⟨k, hk⟩ := h1.2.2 e0 he0
      rw [htag, hk] at htag0
      exact FileTag.noConfusion htag0

/-- C7: external tool failures are isolated per item.  (a) If the outline
trace (`potrace -s`) fails on a file, that file contributes nothing at all —
the batch result equals the result without it, so no outline, no
color-separated output and no group membership.  (b) If the outline trace
succeeds but the color-separation step fails (either the filled trace or the
conversion), only the separated EPS is missing and the SVG outline is kept.
(c) In no case does the batch as a whole fail. -/
theorem tool_failure_isolation_c7 (x0 : FileUpload) (xs ys : List FileUpload)
    (f : FileUpload) (iE gbp : Bool) (gT gC : String → Bool)
    (hname : x0.filename ≠ "") :
    (f.svgOk = false →
      process_images true (x0 :: (xs ++ f :: ys)) iE gbp gT gC
        = process_images true (x0 :: (xs ++ ys)) iE gbp gT gC)
    ∧ (allowed_file f.filename = true → ¬ (MAX_FILE_SIZE < f.size) →
        f.decodable = true → f.svgOk = true → (f.epsOk && f.cmykOk) = false →
        (∀ g ∈ x0 :: (xs ++ ys), g.baseName ≠ f.baseName) →
        ("svg/" ++ (f.baseName ++ ".svg"), FileTag.svgOutline f.baseName)
            ∈ (process_images true (x0 :: (xs ++ f :: ys)) iE gbp gT gC).zipList
        ∧ (process_images true (x0 :: (xs ++ f :: ys)) iE gbp gT gC).zipList.countP
            (fun e => e.2 == FileTag.finalEps f.baseName) = 0)
    ∧ (process_images true (x0 :: (xs ++ f :: ys)) iE gbp gT gC).isFailed = false := by
  have hsucc := process_images_eq_success (x0 :: (xs ++ f :: ys)) x0 (xs ++ f :: ys)
    iE gbp gT gC rfl hname
  refine ⟨?_, ?_, by rw [hsucc]; rfl⟩
  · intro hsvg
    have hf : ∀ st : PipeState, step1File iE st f = st := fun st =>
      step1File_skip iE st f (Or.inr (Or.inr (Or.inr hsvg)))
    have h2 := process_images_eq_success (x0 :: (xs ++ ys)) x0 (xs ++ ys)
      iE gbp gT gC rfl hname
    rw [hsucc, h2, batchZip_middle_skip x0 xs ys f iE gbp gT gC hf]
  · intro hA hS hD hV hsep huniq
    rw [hsucc, zipList_success]
    have hallne : ∀ g ∈ ys, g.baseName ≠ f.baseName := fun g hg =>
      huniq g (List.mem_cons_of_mem _ (List.mem_append_right _ hg))
    have hsvgmem : (f.baseName ++ ".svg", FileTag.svgOutline f.baseName)
        ∈ ((x0 :: (xs ++ f :: ys)).foldl (step1File iE) initState).svgDir := by
      rw [show x0 :: (xs ++ f :: ys) = (x0 :: xs) ++ (f :: ys) from rfl,
        List.foldl_append, List.foldl_cons]
      exact foldl_svg_mem iE ys _ f.baseName hallne
        (step1File_svg_mem iE _ f hA hS hD hV)
    constructor
    · simp only [batchZip]
      by_cases hgb : (gbp && iE) = true
      · rw [if_pos hgb]
        refine zipOf_svg_mem iE _ (f.baseName ++ ".svg", FileTag.svgOutline f.baseName) ?_
        rw [foldl_groupStep_svgDir]
        exact hsvgmem
      · rw [if_neg hgb]
        exact zipOf_svg_mem iE _ (f.baseName ++ ".svg", FileTag.svgOutline f.baseName)
          hsvgmem
    · rw [List.countP_eq_zero]
      intro e he hbeq
      have htag : e.2 = FileTag.finalEps f.baseName := by
        exact eq_of_beq hbeq
      refine batchZip_no_finalEps (x0 :: (xs ++ f :: ys)) iE gbp gT gC f.baseName
        ?_ e he htag
      intro g hg
      rcases List.mem_cons.mp hg with rfl | hg2
      · intro hcon
        exact huniq g (List.mem_cons_self _ _) hcon.1
      · rcases List.mem_append.mp hg2 with hgx | hgy
        · intro hcon
          exact huniq g (List.mem_cons_of_mem _ (List.mem_append_left _ hgx)) hcon.1
        · rcases List.mem_cons.mp hgy with rfl | hgy2
          · intro hcon
            rw [hcon.2.1, hcon.2.2] at hsep
            simp at hsep
          · intro hcon
            exact huniq g (List.mem_cons_of_mem _ (List.mem_append_right _ hgy2)) hcon.1

/-- An upload whose outline trace succeeds but whose filled trace fails. -/
def fSep : FileUpload := ⟨"b.png", "b", 100, true, true, false, true⟩

/-- Witness for C7 at a concrete batch: the separation-failed file keeps its
outline and has no separated EPS anywhere in the archive. -/
theorem tool_failure_isolation_c7_witness :
    fPart1.filename ≠ ""
    ∧ allowed_file fSep.filename = true
    ∧ fSep.svgOk = true
    ∧ (fSep.epsOk && fSep.cmykOk) = false
    ∧ ("svg/" ++ ("b" ++ ".svg"), FileTag.svgOutline "b")
        ∈ (process_images true [fPart1, fSep] true true allTrue allTrue).zipList
    ∧ (process_images true [fPart1, fSep] true true allTrue allTrue).zipList.countP
        (fun e => e.2 == FileTag.finalEps "b") = 0 := by
  have h := tool_failure_isolation_c7 fPart1 [] [] fSep true true allTrue allTrue
    (by decide)
  have hb := h.2.1 (by decide) (by decide) (by decide) (by decide) (by decide) (by decide)
  exact ⟨by decide, by decide, by decide, by decide, hb.1, hb.2⟩

/-! ### Group stage: exactly one artifact per composited group -/

lemma appendGroup_keys (gs : List (String × List String)) (k v : String) :
    (appendGroup gs k v).map Prod.fst
      = if k ∈ gs.map Prod.fst then gs.map Prod.fst else gs.map Prod.fst ++ [k] := by
  induction gs with
  | nil => simp [appendGroup]
  | cons g rest ih =>
    rcases g with ⟨k1, vs⟩
    by_cases hk : k1 = k
    · subst hk
      simp [appendGroup]
    · have hstep : appendGroup ((k1, vs) :: rest) k v = (k1, vs) :: appendGroup rest k v := by
        simp [appendGroup, hk]
      rw [hstep]
      by_cases hmem : k ∈ rest.map Prod.fst
      · rw [List.map_cons, ih, if_pos hmem]
        have : k ∈ ((k1, vs) :: rest).map Prod.fst := by
          rw [List.map_cons]
          exact List.mem_cons_of_mem _ hmem
        rw [if_pos this, List.map_cons]
      · rw [List.map_cons, ih, if_neg hmem]
        have : ¬ k ∈ ((k1, vs) :: rest).map Prod.fst := by
          rw [List.map_cons]
          intro hc
          rcases List.mem_cons.mp hc with hc1 | hc2
          · exact hk hc1.symm
          · exact hmem hc2
        rw [if_neg this, List.map_cons, List.cons_append]

lemma appendGroup_keys_nodup (gs : List (String × List String)) (k v : String)
    (h : (gs.map Prod.fst).Nodup) : ((appendGroup gs k v).map Prod.fst).Nodup := by
  rw [appendGroup_keys]
  by_cases hm : k ∈ gs.map Prod.fst
  · rw [if_pos hm]
    exact h
  · rw [if_neg hm]
    rw [List.nodup_append]
    refine ⟨h, List.nodup_singleton k, ?_⟩
    intro a ha hb
    rw [List.mem_singleton] at hb
    subst hb
    exact hm ha

lemma step1File_keys_nodup (i : Bool) (st : PipeState) (f : FileUpload)
    (h : (st.groups.map Prod.fst).Nodup) :
    (((step1File i st f).groups).map Prod.fst).Nodup := by
  by_cases h1 : allowed_file f.filename = true
  · by_cases h2 : MAX_FILE_SIZE < f.size
    · simpa only [step1File, h1, h2, Bool.not_true, if_false, if_true] using h
    · by_cases h3 : f.decodable = true
      · by_cases h4 : f.svgOk = true
        · simp only [step1File, h1, h2, h3, h4, Bool.not_true, if_false]
          exact appendGroup_keys_nodup st.groups (groupKey f.baseName) f.baseName h
        · simpa only [step1File, h1, h2, h3, h4, Bool.not_true, Bool.not_false,
            if_false, if_true] using h
      · simpa only [step1File, h1, h2, h3, Bool.not_true, Bool.not_false,
          if_false, if_true] using h
  · simpa only [step1File, h1, Bool.not_false, if_true] using h

lemma foldl_keys_nodup (i : Bool) (fs : List FileUpload) :
    ∀ st : PipeState, (st.groups.map Prod.fst).Nodup →
    (((fs.foldl (step1File i) st).groups).map Prod.fst).Nodup := by
  induction fs with
  | nil => intro st h; exact h
  | cons f rest ih =>
    intro st h
    rw [List.foldl_cons]
    exact ih _ (step1File_keys_nodup i st f h)

lemma groupStep_creates (gT gC : String → Bool) (st : PipeState) (p : String)
    (ms : List String) (hlen : 1 < ms.length) (hgT : gT p = true) (hgC : gC p = true) :
    (p ++ "_final.eps", FileTag.finalGroupEps p)
      ∈ (groupStep gT gC st (p, ms)).groupDir := by
  have h1 : ¬ ((p, ms).2.length ≤ 1) := not_le.mpr hlen
  simp only [groupStep, h1, hgT, hgC, if_true, if_false]
  exact mem_fsRemove_of_ne (mem_fsCreate_self _ _ _) (suffix_final_ne_raw p p)

lemma groupStep_preserves_final (gT gC : String → Bool) (st : PipeState)
    (g : String × List String) (p : String) (hne : g.1 ≠ p)
    (hmem : (p ++ "_final.eps", FileTag.finalGroupEps p) ∈ st.groupDir) :
    (p ++ "_final.eps", FileTag.finalGroupEps p) ∈ (groupStep gT gC st g).groupDir := by
  have hraw : (p ++ "_final.eps" : String) ≠ g.1 ++ "_final_raw.eps" :=
    suffix_final_ne_raw p g.1
  have hfin : (p ++ "_final.eps" : String) ≠ g.1 ++ "_final.eps" := by
    intro hcontra
    exact hne (string_append_cancel p g.1 ("_final.eps") hcontra).symm
  by_cases h1 : g.2.length ≤ 1
  · simpa only [groupStep, h1, if_true] using hmem
  by_cases h2 : gT g.1 = true
  · simp only [groupStep, h1, h2, if_true, if_false]
    by_cases hc : gC g.1 = true
    · rw [if_pos hc]
      exact mem_fsRemove_of_ne
        (mem_fsCreate_of_ne (mem_fsCreate_of_ne hmem hraw) hfin) hraw
    · rw [if_neg hc]
      exact mem_fsRemove_of_ne (mem_fsCreate_of_ne hmem hraw) hraw
  · simpa only [groupStep, h1, h2, if_true, if_false, Bool.false_eq_true] using hmem

lemma foldl_groupStep_preserves_final (gT gC : String → Bool)
    (gs : List (String × List String)) :
    ∀ (st : PipeState) (p : String), (∀ g ∈ gs, g.1 ≠ p) →
    (p ++ "_final.eps", FileTag.finalGroupEps p) ∈ st.groupDir →
    (p ++ "_final.eps", FileTag.finalGroupEps p)
      ∈ (gs.foldl (groupStep gT gC) st).groupDir := by
  induction gs with
  | nil => intro st p _ hmem; exact hmem
  | cons g rest ih =>
    intro st p hall hmem
    rw [List.foldl_cons]
    exact ih _ p (fun g2 hg2 => hall g2 (List.mem_cons_of_mem _ hg2))
      (groupStep_preserves_final gT gC st g p (hall g (List.mem_cons_self _ _)) hmem)

lemma zipOf_group_mem (st : PipeState) (e : String × FileTag)
    (he : e ∈ st.groupDir) : ("groups/" ++ e.1, e.2) ∈ zipOf true st := by
  unfold zipOf
  refine List.mem_append_right _ ?_
  rw [if_pos rfl]
  exact List.mem_append_right _ (List.mem_map_of_mem _ he)

/-- C5 counterexample: two same-prefix files with all tools succeeding.  The
composited group "part" contributes exactly one artifact to the archive — the
color-separated `groups/part_final.eps` — and no group-outline artifact
exists (the group stage never runs an outline trace), contradicting the claim
that both output kinds are produced for each composited group. -/
theorem group_artifacts_c5_counterexample :
    process_images true [fPart1, fPart2] true true allTrue allTrue
      = BatchResult.success
          [("svg/part1.svg", FileTag.svgOutline "part1"),
           ("svg/part2.svg", FileTag.svgOutline "part2"),
           ("eps/part1.eps", FileTag.finalEps "part1"),
           ("eps/part2.eps", FileTag.finalEps "part2"),
           ("groups/part_final.eps", FileTag.finalGroupEps "part")]
    ∧ ((process_images true [fPart1, fPart2] true true allTrue allTrue).zipList.filter
        (fun e => isGroupStageTag e.2)).map Prod.snd = [FileTag.finalGroupEps "part"]
    ∧ (process_images true [fPart1, fPart2] true true allTrue allTrue).zipList.countP
        (fun e => e.2 == FileTag.svgOutline "part") = 0 :=
  ⟨by decide, by decide, by decide⟩

/-- C5 amended: for every group with more than one member, when group outputs
are requested (grouping and EPS output enabled) and the group's trace and
conversion succeed, the pipeline produces the group color-separated artifact
`groups/<key>_final.eps` — and that is the only group output kind: no
group-outline artifact is ever produced (every group-stage artifact in the
archive is a converted final group EPS). -/
theorem group_artifacts_c5_amended (files : List FileUpload) (f0 : FileUpload)
    (rest : List FileUpload) (gT gC : String → Bool) (p : String) (ms : List String)
    (hfiles : files = f0 :: rest) (hname : f0.filename ≠ "")
    (hg : (p, ms) ∈ (files.foldl (step1File true) initState).groups)
    (hlen : 1 < ms.length) (hgT : gT p = true) (hgC : gC p = true) :
    ("groups/" ++ (p ++ "_final.eps"), FileTag.finalGroupEps p)
        ∈ (process_images true files true true gT gC).zipList
    ∧ (∀ e ∈ (process_images true files true true gT gC).zipList,
        isGroupStageTag e.2 = true → ∃ k, e.2 = FileTag.finalGroupEps k) := by
  have hsucc := process_images_eq_success files f0 rest true true gT gC hfiles hname
  constructor
  · rw [hsucc, zipList_success]
    simp only [batchZip]
    show ("groups/" ++ (p ++ "_final.eps"), FileTag.finalGroupEps p) ∈
      zipOf true (List.foldl (groupStep gT gC)
        (List.foldl (step1File true) initState files)
        (List.foldl (step1File true) initState files).groups)
    obtain ⟨l₁, l₂, hsplit⟩ := List.append_of_mem hg
    have hnodup : (((files.foldl (step1File true) initState).groups).map Prod.fst).Nodup :=
      foldl_keys_nodup true files initState (by simp [initState])
    have hpl2 : ∀ g ∈ l₂, g.1 ≠ p := by
      rw [hsplit, List.map_append, List.map_cons] at hnodup
      have h2 := (List.nodup_append.mp hnodup).2.1
      have hp : p ∉ l₂.map Prod.fst := (List.nodup_cons.mp h2).1
      intro g hgmem hgp
      exact hp (hgp ▸ List.mem_map_of_mem Prod.fst hgmem)
    rw [hsplit, List.foldl_append, List.foldl_cons]
    have hcreated := groupStep_creates gT gC
      (l₁.foldl (groupStep gT gC) (files.foldl (step1File true) initState)) p ms
      hlen hgT hgC
    have hfinal := foldl_groupStep_preserves_final gT gC l₂ _ p hpl2 hcreated
    exact zipOf_group_mem _ (p ++ "_final.eps", FileTag.finalGroupEps p) hfinal
  · intro e he hgs
    rw [hsucc, zipList_success] at he
    rcases batchZip_tags files true true gT gC e he with ⟨b, hb⟩ | ⟨b, hb⟩ | ⟨k, hk⟩
    · rw [hb] at hgs
      simp [isGroupStageTag] at hgs
    · rw [hb] at hgs
      simp [isGroupStageTag] at hgs
    · exact ⟨k, hk⟩

/-- Witness for the amended C5 at a concrete two-member group. -/
theorem group_artifacts_c5_witness :
    ("part", ["part1", "part2"])
        ∈ ([fPart1, fPart2].foldl (step1File true) initState).groups
    ∧ 1 < (["part1", "part2"] : List String).length
    ∧ allTrue ("part") = true
    ∧ ("groups/" ++ ("part" ++ "_final.eps"), FileTag.finalGroupEps "part")
        ∈ (process_images true [fPart1, fPart2] true true allTrue allTrue).zipList :=
  ⟨by decide, by decide, rfl,
    (group_artifacts_c5_amended [fPart1, fPart2] fPart1 [fPart2] allTrue allTrue
      ("part") (["part1", "part2"]) rfl (by decide) (by decide) (by decide)
      rfl rfl).1⟩
